import Mathlib

/-!
Verification of the hierarchical data-tracker / logger core of the
Advent-of-Code runner (src/aoc_runner/data_tracker.py,
src/aoc_runner/Loggers/__init__.py, src/aoc_runner/Loggers/runtime_logger.py).

The Python code is shallowly embedded: dictionaries become insertion-ordered
association lists, floats become `ℚ`, Python exceptions become an explicit
error type, and each method becomes a Lean function translated clause by
clause from the source.
-/

set_option maxHeartbeats 1000000

/-- A primitive key segment: Python `str` or `int` values used inside
tuple-valued segments (ranks, languages, years, days). -/
inductive Seg0 where
  | s (v : String)
  | n (v : Int)
deriving DecidableEq, Repr

/-- A key segment of a tracker path: a string, an integer, or a tuple of
primitive segments (tuples appear as keys of the derived `longest` subtree,
`runtime_logger.py` line 81). -/
inductive Seg where
  | s (v : String)
  | n (v : Int)
  | tup (l : List Seg0)
deriving DecidableEq, Repr

/-- The Python exceptions the embedded methods can raise:
`KeyError` (dict lookup miss), `TypeError` (`in`/subscript on a float leaf),
`AttributeError` (`add_data` called on a float leaf), `IndexError`
(`key[0]` on an empty key list).  Note the code defines no custom
exception classes such as `LeafInteriorConflictError`. -/
inductive PyErr where
  | keyError
  | typeError
  | attributeError
  | indexError
deriving DecidableEq, Repr

/-- A node of a `RuntimeTracker` tree (`runtime_logger.py` lines 15-32):
either a float leaf stored in the `data` dict, or a nested tracker carrying
its `total` and `average` aggregate fields plus its insertion-ordered
`data` dict. -/
inductive RTNode where
  | leaf (v : ℚ)
  | sub (total average : ℚ) (data : List (Seg × RTNode))

/-- A freshly constructed `RuntimeTracker()` : `total = 0`, `average = 0`,
empty `data` dict (dataclass defaults, `runtime_logger.py` lines 21-22). -/
def emptyT : RTNode := .sub 0 0 []

/-- Python dict lookup `d[k]` on an insertion-ordered association list. -/
def dictGet (d : List (Seg × RTNode)) (k : Seg) : Option RTNode :=
  match d with
  | [] => none
  | (k', v) :: t => if k' = k then some v else dictGet t k

/-- Python dict assignment `d[k] = v`: replaces the binding in place if the
key exists (keeping its position), otherwise appends the new binding. -/
def dictSet (d : List (Seg × RTNode)) (k : Seg) (v : RTNode) :
    List (Seg × RTNode) :=
  match d with
  | [] => [(k, v)]
  | (k', v') :: t => if k' = k then (k, v) :: t else (k', v') :: dictSet t k v

/-- The contribution of one dict value to `total`:
`v if isinstance(v, float) else v.total` (`runtime_logger.py` line 30). -/
def nodeVal : RTNode → ℚ
  | .leaf v => v
  | .sub total _ _ => total

/-- `sum(v if isinstance(v, float) else v.total for v in self.data.values())`
(`runtime_logger.py` lines 29-31). -/
def aggTotal : List (Seg × RTNode) → ℚ
  | [] => 0
  | (_, v) :: t => nodeVal v + aggTotal t

/-- `RuntimeTracker.update` (`runtime_logger.py` lines 28-32) applied after a
structural insertion: recompute `total` and `average = total / len(data)`.
`update` is only ever invoked on a non-empty `data` dict (`add_data` always
inserts first); for the empty dict `ℚ` division by zero yields `0`, which
coincides with the dataclass defaults. -/
def mkUpdated (d : List (Seg × RTNode)) : RTNode :=
  .sub (aggTotal d) (aggTotal d / (d.length : ℚ)) d

/-- `DataTracker.add_data` (`data_tracker.py` lines 31-45) specialised to
`RuntimeTracker` (whose `update` hook is `mkUpdated`):
empty key raises `IndexError` at `key[0]`; a single segment overwrites
`data[k]` with the leaf; a longer key creates a fresh empty child when the
segment is unbound, recurses (recursing into a float leaf raises
`AttributeError` in Python), and finally runs `update()`. -/
def add_data (node : RTNode) (key : List Seg) (v : ℚ) :
    Except PyErr RTNode :=
  match node with
  | .leaf _ => .error .attributeError
  | .sub _ _ d =>
    match key with
    | [] => .error .indexError
    | [k] => .ok (mkUpdated (dictSet d k (.leaf v)))
    | k :: r :: rest =>
      match dictGet d k with
      | some c =>
        match add_data c (r :: rest) v with
        | .ok c' => .ok (mkUpdated (dictSet d k c'))
        | .error e => .error e
      | none =>
        match add_data emptyT (r :: rest) v with
        | .ok c' => .ok (mkUpdated (dictSet d k c'))
        | .error e => .error e
termination_by key.length

/-- `DataTracker.__getitem__` (`data_tracker.py` lines 47-55): strict
traversal; a missing segment raises `KeyError` (the dict lookup), and
subscripting a float leaf with the remaining key raises `TypeError`. -/
def getItem (node : RTNode) (key : List Seg) : Except PyErr RTNode :=
  match node with
  | .leaf _ => .error .typeError
  | .sub _ _ d =>
    match key with
    | [] => .error .indexError
    | [k] =>
      match dictGet d k with
      | some n => .ok n
      | none => .error .keyError
    | k :: r :: rest =>
      match dictGet d k with
      | some n => getItem n (r :: rest)
      | none => .error .keyError
termination_by key.length

/-- `DataTracker.__contains__` (`data_tracker.py` lines 57-65):
`key[0] in self.data and key[1:] in self.data[key[0]]` — short-circuits to
`False` on a missing segment, but evaluating `key[1:] in leaf` on a float
leaf raises `TypeError` (a float is not a container). -/
def containsK (node : RTNode) (key : List Seg) : Except PyErr Bool :=
  match node with
  | .leaf _ => .error .typeError
  | .sub _ _ d =>
    match key with
    | [] => .error .indexError
    | [k] => .ok (dictGet d k).isSome
    | k :: r :: rest =>
      match dictGet d k with
      | some n => containsK n (r :: rest)
      | none => .ok false
termination_by key.length

mutual
/-- Leaf count of one dict value: `len(v)` for a nested tracker, else `1`
(`data_tracker.py` lines 67-75). -/
def nodeSize : RTNode → Nat
  | .leaf _ => 1
  | .sub _ _ d => sizeT d

/-- `DataTracker.__len__` (`data_tracker.py` lines 67-75): total number of
leaves reachable from the `data` dict. -/
def sizeT : List (Seg × RTNode) → Nat
  | [] => 0
  | (_, v) :: t => nodeSize v + sizeT t
end

mutual
/-- Whether one node's stored aggregates are consistent (trivially true for
a leaf; for a tracker: `total` equals the sum over immediate children of
their total-or-value, `average` equals `total / len(data)`, recursively). -/
def consistentB : RTNode → Bool
  | .leaf _ => true
  | .sub total average d =>
    decide (total = aggTotal d) &&
      decide (average = aggTotal d / (d.length : ℚ)) && consistentBL d

/-- Aggregate consistency of every node bound in a `data` dict. -/
def consistentBL : List (Seg × RTNode) → Bool
  | [] => true
  | (_, v) :: t => consistentB v && consistentBL t
end

/-- A Python key argument before `conv_key` normalisation
(`data_tracker.py` lines 21-28): a list is kept, other iterables (strings,
tuples) are expanded elementwise by `list(key)`, and a non-iterable value
(an int) is wrapped in a singleton list. -/
inductive PyKey where
  | str (s : String)
  | intg (n : Int)
  | list (l : List Seg)
  | tup (l : List Seg)
deriving Repr

/-- `DataTracker.conv_key(key, *args)` (`data_tracker.py` lines 21-28):
normalise `key` to a list of segments (iterating a Python string yields its
one-character substrings) and append the extra positional arguments. -/
def conv_key (key : PyKey) (args : List Seg) : List Seg :=
  (match key with
   | .list l => l
   | .str s => s.toList.map (fun c => Seg.s (String.mk [c]))
   | .tup l => l
   | .intg n => [Seg.n n]) ++ args

/-- `add_data` as called with a raw Python key: `conv_key` first
(`data_tracker.py` line 35). -/
def add_dataK (node : RTNode) (key : PyKey) (v : ℚ) : Except PyErr RTNode :=
  add_data node (conv_key key []) v

/-- `__getitem__` as called with a raw Python key (`data_tracker.py`
line 50). -/
def getItemK (node : RTNode) (key : PyKey) : Except PyErr RTNode :=
  getItem node (conv_key key [])

/-- `__contains__` as called with a raw Python key (`data_tracker.py`
line 60). -/
def containsKK (node : RTNode) (key : PyKey) : Except PyErr Bool :=
  containsK node (conv_key key [])

section PySort

variable {α : Type _} (before : α → α → Bool)

/-- Insertion step of a stable sort: `before a b` means `a` must be placed
strictly before `b`; a new element is inserted after every element it is not
strictly before, so elements that compare equal keep their original order —
the stability guarantee of Python's `sorted`. -/
def pyIns (a : α) : List α → List α
  | [] => [a]
  | b :: t => if before a b then a :: b :: t else b :: pyIns a t

/-- Stable sort by the strict comparison `before` (insertion sort, processing
the list left to right).  Its output is the unique permutation that is sorted
by `before` and stable, hence it agrees with Python's `sorted`. -/
def pySort (l : List α) : List α :=
  l.foldl (fun acc x => pyIns before x acc) []

end PySort

/-- A keyword-payload value in a pending-update entry: Python strings,
bools, ints and floats. -/
inductive Val where
  | s (v : String)
  | b (v : Bool)
  | n (v : Int)
  | q (v : ℚ)
deriving DecidableEq, Repr

/-- A pending-update entry `(args, kwargs)` appended by
`Logger.add_new_data` (`Loggers/__init__.py` lines 202-206). -/
abbrev Entry := List Seg × List (String × Val)

/-- The sort key of `Logger.log` — `tuple(map(len, d))` for
`d = (new_args, new_kwargs)` (`Loggers/__init__.py` line 111): the pair
(number of positional segments, number of keyword entries). -/
def entryKey (e : Entry) : Nat × Nat := (e.1.length, e.2.length)

/-- Strict lexicographic order on Python 2-tuples of ints. -/
def lexLtKey (x y : Nat × Nat) : Prop :=
  x.1 < y.1 ∨ (x.1 = y.1 ∧ x.2 < y.2)

instance (x y : Nat × Nat) : Decidable (lexLtKey x y) := by
  unfold lexLtKey; infer_instance

/-- `e1` is replayed strictly before `e2` by
`sorted(self.new_data, key=lambda d: tuple(map(len, d)), reverse=True)`:
`reverse=True` puts the larger key first. -/
def beforeEntry (e1 e2 : Entry) : Bool :=
  decide (lexLtKey (entryKey e2) (entryKey e1))

/-- The replay order of the pending queue in `Logger.log`
(`Loggers/__init__.py` lines 110-112): stable descending sort by
(len(args), len(kwargs)). -/
def flushOrder (q : List Entry) : List Entry :=
  pySort beforeEntry q

/-- Python dict lookup `kw.get(k)` on an insertion-ordered keyword payload. -/
def lookupKw (k : String) : List (String × Val) → Option Val
  | [] => none
  | (k', v) :: t => if k' = k then some v else lookupKw k t

/-- `for k, v in kwargs.items(): if k not in new_kwargs: new_kwargs[k] = v`
(`Loggers/__init__.py` lines 113-115): merge the caller-supplied defaults
into an entry's keyword payload, never overwriting an existing key. -/
def mergeDefaults (kw defaults : List (String × Val)) : List (String × Val) :=
  defaults.foldl
    (fun acc p => if (lookupKw p.1 acc).isSome then acc else acc ++ [p]) kw

/-- `new_kwargs["event"] = new_kwargs.get("event", "on_log")`
(`Loggers/__init__.py` line 117): tag the default event when unset
(re-assigning the present value leaves the dict unchanged). -/
def tagEvent (kw : List (String × Val)) : List (String × Val) :=
  match lookupKw "event" kw with
  | some _ => kw
  | none => kw ++ [("event", Val.s "on_log")]

/-- One callback invocation
`func(*new_args, from_logger=self, verbose=self.verbose, **new_kwargs)`
(`Loggers/__init__.py` line 120); callbacks are identified by an opaque
index, and the constant `from_logger`/`verbose` keywords are elided. -/
structure Call where
  fn : Nat
  args : List Seg
  kwargs : List (String × Val)
deriving DecidableEq, Repr

/-- The sequence of callback invocations performed by `Logger.log`
(`Loggers/__init__.py` lines 103-122): replay the queue in `flushOrder`,
merging the defaults and tagging the event, invoking every chosen callable
per entry.  The queue is cleared afterwards. -/
def flushCalls (q : List Entry) (callables : List Nat)
    (defaults : List (String × Val)) : List Call :=
  (flushOrder q).flatMap fun e =>
    callables.map fun fn => ⟨fn, e.1, tagEvent (mergeDefaults e.2 defaults)⟩

/-- Observable outcome of `Logger.__exit__` (`Loggers/__init__.py`
lines 76-101): the flush invocations performed, whether `save_data` ran, and
whether the exception (if any) was suppressed (the context-manager return
value). -/
structure ExitOutcome where
  flushComms : List Call
  saved : Bool
  suppressed : Bool
deriving DecidableEq, Repr

/-- `Logger.__exit__`: with a pending exception it prints and returns
`False` — no flush, no save, the error propagates.  Otherwise it runs
`self.log(log_all=True, callables=self.on_exit)` followed by
`self.save_data()` and returns `True`. -/
def loggerExit (q : List Entry) (onExitFns : List Nat) (excRaised : Bool) :
    ExitOutcome :=
  if excRaised then ⟨[], false, false⟩
  else ⟨flushCalls q onExitFns [("log_all", Val.b true)], true, true⟩

/-- `RuntimeTracker.longest_runtimes.find_times` (`runtime_logger.py`
lines 62-76): collect `(value, key path)` candidates — a float leaf is
collected at any depth, while a nested tracker reached with exactly two
accumulated key segments is collected as its `total` (recursion stops
there); shallower trackers are recursed into. -/
def findTimes (d : List (Seg × RTNode)) (keys : List Seg) :
    List (ℚ × List Seg) :=
  match d with
  | [] => []
  | (k, .leaf f) :: t => (f, keys ++ [k]) :: findTimes t keys
  | (k, .sub total _average sub) :: t =>
    (if keys.length = 2 then [(total, keys ++ [k])]
     else findTimes sub (keys ++ [k])) ++ findTimes t keys

/-- Candidate `a` precedes candidate `b` under
`heapq.nlargest(n, arr, key=lambda x: x[0])`: strictly larger value first
(`nlargest` is documented as `sorted(arr, key=key, reverse=True)[:n]`). -/
def beforeTime (a b : ℚ × List Seg) : Bool := decide (b.1 < a.1)

/-- The `(value, key path)` pairs inserted into the `longest` subtree by
`RuntimeTracker.longest_runtimes` (`runtime_logger.py` lines 58-81) with the
default `n_longest = 10`: the 10 largest candidates of `find_times`, in
descending value order (ties in traversal order). -/
def longestList (node : RTNode) : List (ℚ × List Seg) :=
  match node with
  | .leaf _ => []
  | .sub _ _ d => (pySort beforeTime (findTimes d [])).take 10

/-- Lift a path segment into a tuple element (the paths collected by
`find_times` contain only string and int segments; a nested tuple cannot
occur there and is mapped to a placeholder). -/
def segToSeg0 : Seg → Seg0
  | .s v => .s v
  | .n v => .n v
  | .tup _ => .s ""

/-- The rebuilt `self.longest` tracker (`runtime_logger.py` lines 79-81):
starting from a fresh `RuntimeTracker(False)`, insert each collected pair at
the single tuple-valued key `(i, *path)` with the runtime as the leaf
value. -/
def buildLongest (node : RTNode) : RTNode :=
  ((longestList node).enum).foldl
    (fun acc p =>
      match add_data acc [Seg.tup (Seg0.n (p.1 : Int) :: p.2.2.map segToSeg0)]
          p.2.1 with
      | .ok a => a
      | .error _ => acc)
    emptyT

/-- Whether a segment is a Python tuple (`isinstance(k, tuple)`). -/
def isTup : Seg → Bool
  | .tup _ => true
  | _ => false

/-- Python `str(k)` for the segments that reach `col_name = str(k)`
(strings and ints; a tuple never reaches that branch with a string
rendering that matters for the claims). -/
def segStr : Seg → String
  | .s v => v
  | .n v => toString v
  | .tup _ => ""

/-- A tuple element as a path segment. -/
def seg0ToSeg : Seg0 → Seg
  | .s v => .s v
  | .n v => .n v

/-- The result of `RuntimeTracker.keys_to_indecies` (`runtime_logger.py`
lines 34-56): the `(col_name, tab_name, *row_indecies)` placement, the
layout-flag tuple `(add_ix_label, reduce_row_indecies, no_dividers,
row_ix_slice)` — the slice encoded as its start offset: `0` for
`slice(None)`, `1` for `slice(1, None)` — and the `num_keys` count. -/
structure KTIRes where
  colName : Seg
  tabName : Seg
  rowIndecies : List Seg
  flags : Bool × Bool × Bool × Nat
  numKeys : Nat
deriving DecidableEq, Repr

/-- The branch of `keys_to_indecies` that chooses
`(col_name, tab_name, row_indecies)` from the split `*keys, k = keys`
(`runtime_logger.py` lines 35-51), returning `none` for the explicit
skips: a non-tuple final segment inside the `longest` subtree, and
`len(keys) == 3 and k == "average"`. -/
def ktiCore (init : List Seg) (k : Seg) : Option (Seg × Seg × List Seg) :=
  if Seg.s "longest" ∈ init then
    match k with
    | .tup l => some (.s "time", init.getLastD (.s ""), l.map seg0ToSeg)
    | _ => none
  else if init.length < 2 then
    some (.s (segStr k), .s "Data", init)
  else if init.length = 3 ∧ k = .s "average" then
    none
  else
    match init.drop (init.length - 3) ++ [k] with
    | c :: t :: rows => some (c, t, rows)
    | _ => none

/-- `RuntimeTracker.keys_to_indecies` (`runtime_logger.py` lines 34-56):
split the path as `*keys, k = keys`, choose the placement via `ktiCore`,
then attach the layout flags and `num_keys` according to whether `k` is a
tuple (lines 53-56).  `none` models the method returning `None`, which
`get_tables` (`data_tracker.py` line 181) treats as "skip this leaf".
The empty path (which would fail Python's unpacking) is mapped to `none`. -/
def keys_to_indecies (keys : List Seg) : Option KTIRes :=
  match keys.reverse with
  | [] => none
  | k :: revInit =>
    (ktiCore revInit.reverse k).map fun r =>
      if isTup k then ⟨r.1, r.2.1, r.2.2, (false, false, true, 1), 0⟩
      else ⟨r.1, r.2.1, r.2.2, (true, true, false, 0), revInit.length⟩

/-- Python `str.isnumeric()` restricted to ASCII table names: non-empty and
all digits. -/
def pyIsNumeric (s : String) : Bool :=
  decide (s ≠ "") && s.toList.all (fun c => c.isDigit)

/-- Ascending Python string comparison used by `sorted(...)`. -/
def beforeStr (a b : String) : Bool := decide (a < b)

/-- The order in which `DataTracker.__call__` emits its tables
(`data_tracker.py` lines 130-158): `extra_tables` are the
lexicographically sorted non-numeric names, `year_tables` the sorted
numeric ones; the `MARKDOWN` style emits `extra_tables + year_tables`
(lines 151-154) while every other style emits
`year_tables + extra_tables` (line 158). -/
def tableOrder (names : List String) (style : String) : List String :=
  let extra := pySort beforeStr (names.filter (fun n => !(pyIsNumeric n)))
  let year := pySort beforeStr (names.filter pyIsNumeric)
  if style = "MARKDOWN" then extra ++ year else year ++ extra

/-- Rendering-group rank of a table name: the group emitted first has rank
0.  For `MARKDOWN` the non-numeric ("extra") tables come first; for every
other style the numeric ("year") tables come first. -/
def tableRank (markdown : Bool) (n : String) : Nat :=
  if pyIsNumeric n = markdown then 1 else 0

theorem pyIns_perm {α : Type _} (before : α → α → Bool) (a : α) (l : List α) : (pyIns before a l).Perm (a :: l) := by
  induction l with
  | nil => exact List.Perm.refl _
  | cons b t ih =>
    unfold pyIns
    split
    · exact List.Perm.refl _
    · exact (List.Perm.cons b ih).trans (List.Perm.swap a b t)

theorem pySort_aux_perm {α : Type _} (before : α → α → Bool) (l acc : List α) :
    (l.foldl (fun acc x => pyIns before x acc) acc).Perm (l ++ acc) := by
  induction l generalizing acc with
  | nil => exact List.Perm.refl _
  | cons x t ih =>
    refine (ih (pyIns before x acc)).trans ?_
    refine ((List.Perm.append_left t (pyIns_perm before x acc)).trans ?_)
    exact List.perm_middle

theorem pySort_perm {α : Type _} (before : α → α → Bool) (l : List α) : (pySort before l).Perm l := by
  simpa using pySort_aux_perm before l []

theorem pyIns_pairwise {α : Type _} (before : α → α → Bool)
    (hasymm : ∀ a b, before a b = true → before b a = false)
    (htrans : ∀ a b c, before c a = true → before a b = true →
      before c b = true)
    (a : α) (l : List α)
    (h : l.Pairwise (fun x y => before y x = false)) :
    (pyIns before a l).Pairwise (fun x y => before y x = false) := by
  induction l with
  | nil => simp [pyIns]
  | cons b t ih =>
    rw [List.pairwise_cons] at h
    unfold pyIns
    split
    · rename_i hab
      refine List.pairwise_cons.mpr ⟨?_, List.pairwise_cons.mpr h⟩
      intro c hc
      rcases List.mem_cons.mp hc with rfl | hct
      · exact hasymm a c hab
      · rcases hba : before c a with _ | _
        · rfl
        · exact absurd (htrans a b c hba hab) (by simp [h.1 c hct])
    · rename_i hab
      refine List.pairwise_cons.mpr ⟨?_, ih h.2⟩
      intro c hc
      rcases List.mem_cons.mp ((pyIns_perm before a t).mem_iff.mp hc)
        with rfl | hct
      · simpa using hab
      · exact h.1 c hct

theorem pySort_pairwise {α : Type _} (before : α → α → Bool)
    (hasymm : ∀ a b, before a b = true → before b a = false)
    (htrans : ∀ a b c, before c a = true → before a b = true →
      before c b = true)
    (l : List α) :
    (pySort before l).Pairwise (fun x y => before y x = false) := by
  suffices h : ∀ acc, acc.Pairwise (fun x y => before y x = false) →
      (l.foldl (fun acc x => pyIns before x acc) acc).Pairwise
        (fun x y => before y x = false) by
    exact h [] (by simp)
  induction l with
  | nil => intro acc hacc; exact hacc
  | cons x t ih =>
    intro acc hacc
    exact ih (pyIns before x acc) (pyIns_pairwise before hasymm htrans x acc hacc)

theorem dictGet_dictSet_self (d : List (Seg × RTNode)) (k : Seg) (v : RTNode) :
    dictGet (dictSet d k v) k = some v := by
  induction d with
  | nil => simp [dictGet, dictSet]
  | cons p t ih =>
    obtain ⟨k', v'⟩ := p
    by_cases h : k' = k <;> simp [dictGet, dictSet, h, ih]

theorem dictSet_idem (d : List (Seg × RTNode)) (k : Seg) (v : RTNode) :
    dictSet (dictSet d k v) k v = dictSet d k v := by
  induction d with
  | nil => simp [dictSet]
  | cons p t ih =>
    obtain ⟨k', v'⟩ := p
    by_cases h : k' = k <;> simp [dictSet, h, ih]

theorem consistentBL_dictSet (d : List (Seg × RTNode)) (k : Seg) (v : RTNode)
    (hd : consistentBL d = true) (hv : consistentB v = true) :
    consistentBL (dictSet d k v) = true := by
  induction d with
  | nil => simp [dictSet, consistentBL, hv]
  | cons p t ih =>
    obtain ⟨k', v'⟩ := p
    rw [consistentBL, Bool.and_eq_true] at hd
    by_cases h : k' = k <;>
      simp [dictSet, h, consistentBL, hv, hd.1, hd.2, ih hd.2]

theorem consistentBL_dictGet (d : List (Seg × RTNode)) (k : Seg) (c : RTNode)
    (hd : consistentBL d = true) (hg : dictGet d k = some c) :
    consistentB c = true := by
  induction d with
  | nil => simp [dictGet] at hg
  | cons p t ih =>
    obtain ⟨k', v'⟩ := p
    rw [consistentBL, Bool.and_eq_true] at hd
    by_cases h : k' = k
    · simp [dictGet, h] at hg
      exact hg ▸ hd.1
    · rw [dictGet] at hg
      simp only [h, if_false] at hg
      exact ih hd.2 hg

theorem consistentB_mkUpdated (d : List (Seg × RTNode)) :
    consistentB (mkUpdated d) = consistentBL d := by
  simp [consistentB, mkUpdated]

/-- C3: after every `add_data` call that returns normally, every node of the
resulting tree satisfies the aggregate invariant recomputed bottom-up from
its immediate children: `total` equals the sum of each immediate child's
total-or-value and `average` equals `total` divided by the number of
immediate children — no stale aggregate state remains anywhere in the
tree. -/
theorem add_data_aggregate_consistency (key : List Seg) (node : RTNode)
    (v : ℚ) (node' : RTNode) (h1 : consistentB node = true)
    (h2 : add_data node key v = .ok node') : consistentB node' = true := by
  induction key generalizing node node' with
  | nil => cases node <;> simp [add_data] at h2
  | cons k tail ih =>
    cases node with
    | leaf v0 => simp [add_data] at h2
    | sub tot avg d =>
      rw [consistentB, Bool.and_eq_true, Bool.and_eq_true] at h1
      have hd : consistentBL d = true := h1.2
      cases tail with
      | nil =>
        simp only [add_data, Except.ok.injEq] at h2
        rw [← h2, consistentB_mkUpdated]
        refine consistentBL_dictSet d k (RTNode.leaf v) hd ?_
        simp [consistentB]
      | cons r rest =>
        rw [add_data] at h2
        cases hg : dictGet d k with
        | some c =>
          cases hadd : add_data c (r :: rest) v with
          | ok c' =>
            simp only [hg, hadd, Except.ok.injEq] at h2
            have hc := consistentBL_dictGet d k c hd hg
            rw [← h2, consistentB_mkUpdated]
            exact consistentBL_dictSet d k c' hd (ih c c' hc hadd)
          | error e => simp [hg, hadd] at h2
        | none =>
          cases hadd : add_data emptyT (r :: rest) v with
          | ok c' =>
            simp only [hg, hadd, Except.ok.injEq] at h2
            have hc : consistentB emptyT = true := by
              simp [emptyT, consistentB, consistentBL, aggTotal]
            rw [← h2, consistentB_mkUpdated]
            exact consistentBL_dictSet d k c' hd (ih emptyT c' hc hadd)
          | error e => simp [hg, hadd] at h2

/-- Witness for C3 at a concrete input: the tracker obtained by inserting
`0.5` at `["a"]` into a fresh tracker is aggregate-consistent. -/
theorem add_data_aggregate_consistency_witness :
    consistentB (RTNode.sub (1/2) (1/2) [(Seg.s "a", RTNode.leaf (1/2))]) =
      true := by
  refine add_data_aggregate_consistency [Seg.s "a"] emptyT (1/2) _ ?_ ?_
  · simp [emptyT, consistentB, consistentBL, aggTotal]
  · simp [add_data, emptyT, mkUpdated, dictSet, aggTotal, nodeVal]

theorem sizeT_dictSet_some (d : List (Seg × RTNode)) (k : Seg)
    (c n : RTNode) (hg : dictGet d k = some c) :
    sizeT (dictSet d k n) + nodeSize c = sizeT d + nodeSize n := by
  induction d with
  | nil => simp [dictGet] at hg
  | cons p t ih =>
    obtain ⟨k', v'⟩ := p
    by_cases h : k' = k
    · simp only [dictGet, h, if_pos, Option.some.injEq] at hg
      subst hg
      simp only [dictSet, h, if_pos, sizeT]
      omega
    · rw [dictGet] at hg
      simp only [h, if_false] at hg
      have := ih hg
      simp only [dictSet, if_neg h, sizeT]
      omega

theorem insert_leaf_get (key : List Seg) (node node' : RTNode) (v : ℚ)
    (h : add_data node key v = .ok node') :
    getItem node' key = .ok (.leaf v) := by
  induction key generalizing node node' with
  | nil => cases node <;> simp [add_data] at h
  | cons k tail ih =>
    cases node with
    | leaf v0 => simp [add_data] at h
    | sub tot avg d =>
      cases tail with
      | nil =>
        simp only [add_data, Except.ok.injEq] at h
        rw [← h]
        simp [getItem, mkUpdated, dictGet_dictSet_self]
      | cons r rest =>
        rw [add_data] at h
        cases hg : dictGet d k with
        | some c =>
          cases hadd : add_data c (r :: rest) v with
          | ok c' =>
            simp only [hg, hadd, Except.ok.injEq] at h
            rw [← h]
            simp only [getItem, mkUpdated, dictGet_dictSet_self]
            exact ih c c' hadd
          | error e => simp [hg, hadd] at h
        | none =>
          cases hadd : add_data emptyT (r :: rest) v with
          | ok c' =>
            simp only [hg, hadd, Except.ok.injEq] at h
            rw [← h]
            simp only [getItem, mkUpdated, dictGet_dictSet_self]
            exact ih emptyT c' hadd
          | error e => simp [hg, hadd] at h

theorem size_overwrite (key : List Seg) (node : RTNode) (u w : ℚ)
    (node' : RTNode) (hget : getItem node key = .ok (.leaf u))
    (h : add_data node key w = .ok node') :
    nodeSize node' = nodeSize node := by
  induction key generalizing node node' with
  | nil => cases node <;> simp [getItem] at hget
  | cons k tail ih =>
    cases node with
    | leaf v0 => simp [getItem] at hget
    | sub tot avg d =>
      cases tail with
      | nil =>
        rw [getItem] at hget
        cases hg : dictGet d k with
        | some n =>
          simp only [hg, Except.ok.injEq] at hget
          simp only [add_data, Except.ok.injEq] at h
          rw [← h]
          subst hget
          have := sizeT_dictSet_some d k _ (.leaf w) hg
          simp only [nodeSize, mkUpdated]
          simp only [nodeSize] at this
          omega
        | none => simp [hg] at hget
      | cons r rest =>
        rw [getItem] at hget
        rw [add_data] at h
        cases hg : dictGet d k with
        | some c =>
          simp only [hg] at hget
          cases hadd : add_data c (r :: rest) w with
          | ok c' =>
            simp only [hg, hadd, Except.ok.injEq] at h
            rw [← h]
            have hsz := ih c c' hget hadd
            have := sizeT_dictSet_some d k c c' hg
            simp only [nodeSize, mkUpdated]
            omega
          | error e => simp [hg, hadd] at h
        | none => simp [hg] at hget

theorem add_data_idem (key : List Seg) (node node' : RTNode) (v : ℚ)
    (h : add_data node key v = .ok node') :
    add_data node' key v = .ok node' := by
  induction key generalizing node node' with
  | nil => cases node <;> simp [add_data] at h
  | cons k tail ih =>
    cases node with
    | leaf v0 => simp [add_data] at h
    | sub tot avg d =>
      cases tail with
      | nil =>
        simp only [add_data, Except.ok.injEq] at h
        rw [← h]
        simp [add_data, mkUpdated, dictSet_idem]
      | cons r rest =>
        rw [add_data] at h
        cases hg : dictGet d k with
        | some c =>
          cases hadd : add_data c (r :: rest) v with
          | ok c' =>
            simp only [hg, hadd, Except.ok.injEq] at h
            rw [← h]
            simp only [mkUpdated, add_data, dictGet_dictSet_self,
              ih c c' hadd, dictSet_idem]
          | error e => simp [hg, hadd] at h
        | none =>
          cases hadd : add_data emptyT (r :: rest) v with
          | ok c' =>
            simp only [hg, hadd, Except.ok.injEq] at h
            rw [← h]
            simp only [mkUpdated, add_data, dictGet_dictSet_self,
              ih emptyT c' hadd, dictSet_idem]
          | error e => simp [hg, hadd] at h

/-- C7: inserting a value twice at the same key path is idempotent — the
second `add_data` returns exactly the state produced by the first, so
`size()` and any rendering of the tracker are unchanged — and overwriting
the (now existing) leaf with an arbitrary value leaves `len()` (the leaf
count) unchanged. -/
theorem add_data_idempotent_overwrite (node : RTNode) (key : List Seg)
    (v : ℚ) (node₁ : RTNode) (h : add_data node key v = .ok node₁) :
    add_data node₁ key v = .ok node₁ ∧
      ∀ w node₂, add_data node₁ key w = .ok node₂ →
        nodeSize node₂ = nodeSize node₁ := by
  refine ⟨add_data_idem key node node₁ v h, ?_⟩
  intro w node₂ h₂
  exact size_overwrite key node₁ v w node₂
    (insert_leaf_get key node node₁ v h) h₂

/-- Witness for C7 at a concrete input: re-inserting `1` at `["a"]` returns
the same tracker, and any overwrite of that leaf preserves the leaf
count. -/
theorem add_data_idempotent_overwrite_witness :
    add_data (RTNode.sub 1 1 [(Seg.s "a", RTNode.leaf 1)]) [Seg.s "a"] 1 =
        .ok (RTNode.sub 1 1 [(Seg.s "a", RTNode.leaf 1)]) ∧
      ∀ w node₂,
        add_data (RTNode.sub 1 1 [(Seg.s "a", RTNode.leaf 1)]) [Seg.s "a"]
            w = .ok node₂ →
          nodeSize node₂ =
            nodeSize (RTNode.sub 1 1 [(Seg.s "a", RTNode.leaf 1)]) :=
  add_data_idempotent_overwrite emptyT [Seg.s "a"] 1 _
    (by simp [add_data, emptyT, mkUpdated, dictSet, aggTotal, nodeVal])

/-- C4 counterexample: on the tracker holding the single leaf `["a"] = 1`,
the path `["a", "b"]` has a missing segment (it would traverse beyond the
leaf), yet `__contains__` raises `TypeError` instead of returning `False`,
and `__getitem__` raises `TypeError` instead of `KeyError`. -/
theorem contains_get_counterexample :
    ((add_data emptyT [Seg.s "a"] 1).bind
        (fun t => containsK t [Seg.s "a", Seg.s "b"])) = .error .typeError ∧
      ((add_data emptyT [Seg.s "a"] 1).bind
        (fun t => getItem t [Seg.s "a", Seg.s "b"])) = .error .typeError := by
  constructor <;>
    simp [add_data, emptyT, mkUpdated, dictSet, dictGet, aggTotal, nodeVal,
      Except.bind, containsK, getItem]

/-- C4 amended: `__contains__` returns `False` exactly when `__getitem__`
raises `KeyError` — a missing segment reached while the traversal stays
within interior tracker nodes; a path that would traverse beyond an
existing leaf makes both methods raise `TypeError` instead. -/
theorem contains_false_iff_get_keyError (key : List Seg) (node : RTNode) :
    containsK node key = .ok false ↔ getItem node key = .error .keyError := by
  induction key generalizing node with
  | nil => cases node <;> simp [containsK, getItem]
  | cons k tail ih =>
    cases node with
    | leaf v => simp [containsK, getItem]
    | sub tot avg d =>
      cases tail with
      | nil =>
        rw [containsK, getItem]
        cases hg : dictGet d k <;> simp [hg]
      | cons r rest =>
        rw [containsK, getItem]
        cases hg : dictGet d k with
        | some n => simpa using ih n
        | none => simp

/-- C8 counterexample: `add_data` at a segment already bound to an interior
node succeeds (silently replacing the whole subtree) instead of failing,
and extending a path through a segment bound to a leaf fails with
`AttributeError` — the code defines no `LeafInteriorConflictError` at
all. -/
theorem leaf_interior_counterexample :
    ((add_data emptyT [Seg.s "a", Seg.s "b"] 1).bind
        (fun t => add_data t [Seg.s "a"] 2)).map (fun _ => ()) = .ok () ∧
      ((add_data emptyT [Seg.s "a"] 1).bind
        (fun t => add_data t [Seg.s "a", Seg.s "b"] 2)) =
        .error .attributeError := by
  constructor <;>
    simp [add_data, emptyT, mkUpdated, dictSet, dictGet, aggTotal, nodeVal,
      Except.bind, Except.map]

/-- C8 amended: a one-segment `add_data` always succeeds, overwriting
whatever was bound — including an interior subtree — with the new leaf,
while extending a path through a segment currently bound to a leaf fails
with an uncaught `AttributeError` (a float has no `add_data`); no
`LeafInteriorConflictError` exists in the code. -/
theorem leaf_interior_amended (tot avg : ℚ) (d : List (Seg × RTNode))
    (k r : Seg) (rest : List Seg) (v u : ℚ)
    (h : dictGet d k = some (.leaf u)) :
    (∃ node', add_data (.sub tot avg d) [k] v = .ok node') ∧
      add_data (.sub tot avg d) (k :: r :: rest) v =
        .error .attributeError := by
  constructor
  · exact ⟨mkUpdated (dictSet d k (.leaf v)), by simp [add_data]⟩
  · simp [add_data, h]

/-- Witness for C8 (amended) at a concrete input: the tracker with leaf
`["a"] = 1`. -/
theorem leaf_interior_amended_witness :
    (∃ node', add_data (.sub 1 1 [(Seg.s "a", RTNode.leaf 1)]) [Seg.s "a"]
        2 = .ok node') ∧
      add_data (.sub 1 1 [(Seg.s "a", RTNode.leaf 1)])
          [Seg.s "a", Seg.s "b"] 2 = .error .attributeError :=
  leaf_interior_amended 1 1 [(Seg.s "a", RTNode.leaf 1)] (Seg.s "a")
    (Seg.s "b") [] 2 1 (by simp [dictGet])

/-- C10: `conv_key` expands every iterable non-list key elementwise — the
string `"rust"` becomes the four single-character segments
`['r', 'u', 's', 't']` for `add_data`, `__getitem__` and `__contains__`
alike, a tuple becomes its elements — while a non-iterable int key is
wrapped as a single segment; extra positional arguments are appended. -/
theorem conv_key_expands_iterables :
    (∀ args, conv_key (.str "rust") args =
        [Seg.s "r", Seg.s "u", Seg.s "s", Seg.s "t"] ++ args) ∧
      (∀ (node : RTNode) (v : ℚ), add_dataK node (.str "rust") v =
        add_data node [Seg.s "r", Seg.s "u", Seg.s "s", Seg.s "t"] v) ∧
      (∀ node : RTNode, getItemK node (.str "rust") =
        getItem node [Seg.s "r", Seg.s "u", Seg.s "s", Seg.s "t"]) ∧
      (∀ node : RTNode, containsKK node (.str "rust") =
        containsK node [Seg.s "r", Seg.s "u", Seg.s "s", Seg.s "t"]) ∧
      (∀ (s : String) (args : List Seg), conv_key (.str s) args =
        s.toList.map (fun c => Seg.s (String.mk [c])) ++ args) ∧
      (∀ (l : List Seg) (args : List Seg), conv_key (.tup l) args =
        l ++ args) ∧
      (∀ (n : Int) (args : List Seg), conv_key (.intg n) args =
        [Seg.n n] ++ args) ∧
      (∀ (l : List Seg) (args : List Seg), conv_key (.list l) args =
        l ++ args) := by
  refine ⟨?_, ?_, ?_, ?_, ?_, ?_, ?_, ?_⟩ <;> intros <;> rfl

theorem beforeEntry_asymm (a b : Entry) (h : beforeEntry a b = true) :
    beforeEntry b a = false := by
  simp only [beforeEntry, lexLtKey, entryKey, decide_eq_true_eq,
    decide_eq_false_iff_not] at h ⊢
  omega

theorem beforeEntry_trans (a b c : Entry) (h1 : beforeEntry c a = true)
    (h2 : beforeEntry a b = true) : beforeEntry c b = true := by
  simp only [beforeEntry, lexLtKey, entryKey, decide_eq_true_eq] at h1 h2 ⊢
  omega

/-- C1 counterexample: the pending queue is not replayed with ties broken
by the positional segment values.  Two fully tied entries keep their
enqueue order (`["a"]` before `["b"]`, not value-descending); an entry with
more keyword-payload entries jumps ahead of one with fewer, in both
directions relative to the segment values (`["a"]` with two kwargs precedes
`["b"]`, and `["b"]` with one kwarg precedes `["a"]`). -/
theorem flush_order_counterexample :
    flushOrder [([Seg.s "a"], []), ([Seg.s "b"], [])] =
        [([Seg.s "a"], []), ([Seg.s "b"], [])] ∧
      flushOrder [([Seg.s "a"], [("x", Val.n 1), ("y", Val.n 2)]),
          ([Seg.s "b"], [])] =
        [([Seg.s "a"], [("x", Val.n 1), ("y", Val.n 2)]),
          ([Seg.s "b"], [])] ∧
      flushOrder [([Seg.s "a"], []), ([Seg.s "b"], [("x", Val.n 1)])] =
        [([Seg.s "b"], [("x", Val.n 1)]), ([Seg.s "a"], [])] := by
  refine ⟨?_, ?_, ?_⟩ <;>
    simp [flushOrder, pySort, pyIns, beforeEntry, entryKey, lexLtKey]

/-- C1 amended: every flush replays the queued entries sorted descending by
the pair (number of positional segments, number of keyword-payload
entries); entries that tie on both counts are replayed in enqueue order
(the sort is stable), and segment values are never compared. -/
theorem flush_order_amended (q : List Entry) :
    (flushOrder q).Perm q ∧
      (flushOrder q).Pairwise
        (fun x y => ¬ lexLtKey (entryKey x) (entryKey y)) := by
  refine ⟨pySort_perm beforeEntry q, ?_⟩
  refine (pySort_pairwise beforeEntry beforeEntry_asymm beforeEntry_trans
    q).imp ?_
  intro a b h
  simpa [beforeEntry] using h

theorem beforeStr_asymm (a b : String) (h : beforeStr a b = true) :
    beforeStr b a = false := by
  simp only [beforeStr, decide_eq_true_eq, decide_eq_false_iff_not] at h ⊢
  exact lt_asymm h

theorem beforeStr_trans (a b c : String) (h1 : beforeStr c a = true)
    (h2 : beforeStr a b = true) : beforeStr c b = true := by
  simp only [beforeStr, decide_eq_true_eq] at h1 h2 ⊢
  exact lt_trans h1 h2

theorem pySortStr_le (l : List String) :
    (pySort beforeStr l).Pairwise (fun a b => a ≤ b) := by
  refine (pySort_pairwise beforeStr beforeStr_asymm beforeStr_trans l).imp ?_
  intro a b h
  simp only [beforeStr, decide_eq_false_iff_not] at h
  exact not_lt.mp h

/-- C5 counterexample: in the `DEFAULT` (non-markdown) style the purely
numeric table `"2023"` is rendered before the non-numeric table
`"Longest"`, not after it. -/
theorem table_order_counterexample :
    tableOrder ["Longest", "2023"] "DEFAULT" = ["2023", "Longest"] ∧
      pyIsNumeric "2023" = true ∧ pyIsNumeric "Longest" = false := by
  refine ⟨?_, by decide, by decide⟩
  simp [tableOrder, pySort, pyIns, beforeStr, pyIsNumeric]

/-- C5 amended: the rendered table sequence is a permutation of the table
names in which, for the `MARKDOWN` style, every non-numeric ("extra") name
precedes every purely numeric ("year") name, while for every other style
the numeric names precede the non-numeric ones; within each group the
names are in ascending lexicographic order.  (`tableRank` gives the group
emitted first rank 0.) -/
theorem table_order_amended (names : List String) (style : String) :
    (tableOrder names style).Perm names ∧
      (tableOrder names style).Pairwise (fun a b =>
        tableRank (decide (style = "MARKDOWN")) a <
            tableRank (decide (style = "MARKDOWN")) b ∨
          (tableRank (decide (style = "MARKDOWN")) a =
              tableRank (decide (style = "MARKDOWN")) b ∧ a ≤ b)) := by
  have hyear := pySort_perm beforeStr (names.filter pyIsNumeric)
  have hextra := pySort_perm beforeStr
    (names.filter (fun n => !(pyIsNumeric n)))
  have hpart := List.filter_append_perm pyIsNumeric names
  have hmem_year : ∀ a ∈ pySort beforeStr (names.filter pyIsNumeric),
      pyIsNumeric a = true := by
    intro a ha
    exact (List.mem_filter.mp (hyear.mem_iff.mp ha)).2
  have hmem_extra :
      ∀ a ∈ pySort beforeStr (names.filter (fun n => !(pyIsNumeric n))),
        pyIsNumeric a = false := by
    intro a ha
    have := (List.mem_filter.mp (hextra.mem_iff.mp ha)).2
    simpa using this
  by_cases h : style = "MARKDOWN"
  · constructor
    · simp only [tableOrder, if_pos h]
      exact (hextra.append hyear).trans (List.perm_append_comm.trans hpart)
    · simp only [tableOrder, if_pos h, h, decide_eq_true_eq]
      simp only [h, decide_eq_true_eq, eq_self_iff_true, if_true]
      refine List.pairwise_append.mpr ⟨?_, ?_, ?_⟩
      · refine (pySortStr_le _).imp_of_mem ?_
        intro a b ha hb hle
        exact Or.inr ⟨by simp [tableRank, hmem_extra a ha,
          hmem_extra b hb], hle⟩
      · refine (pySortStr_le _).imp_of_mem ?_
        intro a b ha hb hle
        exact Or.inr ⟨by simp [tableRank, hmem_year a ha,
          hmem_year b hb], hle⟩
      · intro a ha b hb
        exact Or.inl (by simp [tableRank, hmem_extra a ha, hmem_year b hb])
  · constructor
    · simp only [tableOrder, if_neg h]
      exact (hyear.append hextra).trans hpart
    · simp only [tableOrder, if_neg h]
      simp only [h]
      refine List.pairwise_append.mpr ⟨?_, ?_, ?_⟩
      · refine (pySortStr_le _).imp_of_mem ?_
        intro a b ha hb hle
        exact Or.inr ⟨by simp [tableRank, hmem_year a ha,
          hmem_year b hb], hle⟩
      · refine (pySortStr_le _).imp_of_mem ?_
        intro a b ha hb hle
        exact Or.inr ⟨by simp [tableRank, hmem_extra a ha,
          hmem_extra b hb], hle⟩
      · intro a ha b hb
        exact Or.inl (by simp [tableRank, hmem_year a ha, hmem_extra b hb])

theorem lookupKw_append_none (k : String) (l1 l2 : List (String × Val))
    (h : lookupKw k l1 = none) : lookupKw k (l1 ++ l2) = lookupKw k l2 := by
  induction l1 with
  | nil => simp
  | cons p t ih =>
    obtain ⟨k', v⟩ := p
    rw [lookupKw] at h
    by_cases hk : k' = k
    · simp [hk] at h
    · rw [List.cons_append, lookupKw]
      simp only [hk, if_false] at h ⊢
      exact ih h

theorem mergeDefaults_none (k : String) (defaults kw : List (String × Val))
    (hkw : lookupKw k kw = none) (hd : ∀ p ∈ defaults, p.1 ≠ k) :
    lookupKw k (mergeDefaults kw defaults) = none := by
  induction defaults generalizing kw with
  | nil => simpa [mergeDefaults] using hkw
  | cons p ds ih =>
    simp only [mergeDefaults, List.foldl_cons]
    by_cases hp : (lookupKw p.1 kw).isSome
    · simp only [hp, if_pos]
      exact ih kw hkw (fun p' hp' => hd p' (List.mem_cons_of_mem _ hp'))
    · simp only [hp, if_false]
      refine ih (kw ++ [p]) ?_ (fun p' hp' => hd p' (List.mem_cons_of_mem _ hp'))
      rw [lookupKw_append_none k kw [p] hkw, lookupKw]
      simp [lookupKw, hd p (List.mem_cons_self p ds)]

theorem tagEvent_event (kw : List (String × Val))
    (h : lookupKw "event" kw = none) :
    lookupKw "event" (tagEvent kw) = some (Val.s "on_log") := by
  simp only [tagEvent, h]
  rw [lookupKw_append_none _ _ _ h, lookupKw]
  simp

/-- C6 counterexample: releasing the sink scope without an exception, with
one pending entry `(["a"], {})` and one registered `on_exit` callback, the
single flush invocation is tagged `event="on_log"` (the default tag in
`Logger.log`), not `event="on_exit"`. -/
theorem logger_exit_counterexample :
    loggerExit [([Seg.s "a"], [])] [0] false =
      ⟨[⟨0, [Seg.s "a"],
          [("log_all", Val.b true), ("event", Val.s "on_log")]⟩],
        true, true⟩ := by
  simp [loggerExit, flushCalls, flushOrder, pySort, pyIns, beforeEntry,
    entryKey, lexLtKey, tagEvent, mergeDefaults, lookupKw]

/-- C6 amended: when the wrapped computation raised, `__exit__` performs no
flush and no save and lets the error propagate (returns `False`); without
an exception it performs the final flush through the `on_exit` callback
list (with `log_all=True` merged into each entry) before saving, but every
entry that does not set an event itself is tagged with the default
`event="on_log"`, not `"on_exit"`. -/
theorem logger_exit_amended (q : List Entry) (fns : List Nat)
    (h : ∀ e ∈ q, lookupKw "event" e.2 = none) :
    loggerExit q fns true = ⟨[], false, false⟩ ∧
      (loggerExit q fns false).saved = true ∧
      (loggerExit q fns false).suppressed = true ∧
      ∀ c ∈ (loggerExit q fns false).flushComms,
        lookupKw "event" c.kwargs = some (Val.s "on_log") := by
  refine ⟨rfl, rfl, rfl, ?_⟩
  intro c hc
  simp only [loggerExit, Bool.false_eq_true, if_false, flushCalls] at hc
  obtain ⟨e, he, hce⟩ := List.mem_flatMap.mp hc
  obtain ⟨fn, hfn, rfl⟩ := List.mem_map.mp hce
  have he' : e ∈ q := (pySort_perm beforeEntry q).mem_iff.mp he
  refine tagEvent_event _ (mergeDefaults_none "event" _ e.2 (h e he') ?_)
  intro p hp
  simp only [List.mem_singleton] at hp
  subst hp
  simp

/-- Witness for C6 (amended) at a concrete input: one pending entry with no
event key and one registered callback. -/
theorem logger_exit_amended_witness :
    loggerExit [([Seg.s "a"], [])] [0] true = ⟨[], false, false⟩ ∧
      (loggerExit [([Seg.s "a"], [])] [0] false).saved = true ∧
      (loggerExit [([Seg.s "a"], [])] [0] false).suppressed = true ∧
      ∀ c ∈ (loggerExit [([Seg.s "a"], [])] [0] false).flushComms,
        lookupKw "event" c.kwargs = some (Val.s "on_log") :=
  logger_exit_amended [([Seg.s "a"], [])] [0]
    (by intro e he; simp only [List.mem_singleton] at he; subst he; rfl)

/-- C9 counterexample: the leaf path `["python", 2023, "average"]` (the
`average` aggregate attribute of a language-year subtree, as walked by
`get_tables`) contains the aggregate pseudo-key `"average"`, yet
`keys_to_indecies` does not skip it — it is bucketed into a table rather
than suppressed. -/
theorem average_skip_counterexample :
    (keys_to_indecies [Seg.s "python", Seg.n 2023, Seg.s "average"]).isSome
        = true ∧
      Seg.s "average" ∈ [Seg.s "python", Seg.n 2023, Seg.s "average"] := by
  constructor
  · simp [keys_to_indecies, ktiCore, isTup, segStr]
  · simp

/-- C9 amended: `keys_to_indecies` skips a leaf path exactly when either
the path lies inside the `longest` subtree and its final segment is not a
tuple, or the path has exactly four segments, its final segment is the
pseudo-key `"average"`, and it is not inside the `longest` subtree.  An
`"average"` segment at any other depth (e.g. a three-segment path) is not
suppressed. -/
theorem average_skip_amended (init : List Seg) (k : Seg) :
    keys_to_indecies (init ++ [k]) = none ↔
      ((Seg.s "longest" ∈ init ∧ isTup k = false) ∨
        (Seg.s "longest" ∉ init ∧ init.length = 3 ∧ k = Seg.s "average")) := by
  have hrev : (init ++ [k]).reverse = k :: init.reverse := by simp
  unfold keys_to_indecies
  rw [hrev]
  simp only [List.reverse_reverse, Option.map_eq_none']
  unfold ktiCore
  by_cases hl : Seg.s "longest" ∈ init
  · cases k <;> simp [isTup, hl]
  · by_cases h2 : init.length < 2
    · simp only [hl, if_neg, if_pos h2]
      simp [hl]
      omega
    · by_cases h3 : init.length = 3 ∧ k = Seg.s "average"
      · simp [hl, h2, h3]
      · have hlen : 2 ≤ (init.drop (init.length - 3)).length := by
          rw [List.length_drop]
          omega
        cases hdrop : init.drop (init.length - 3) with
        | nil => rw [hdrop] at hlen; simp at hlen
        | cons a t1 =>
          cases t1 with
          | nil => rw [hdrop] at hlen; simp at hlen
          | cons b t2 => simp [hl, h2, h3, hdrop]

theorem beforeTime_asymm (a b : ℚ × List Seg) (h : beforeTime a b = true) :
    beforeTime b a = false := by
  simp only [beforeTime, decide_eq_true_eq, decide_eq_false_iff_not] at h ⊢
  exact lt_asymm h

theorem beforeTime_trans (a b c : ℚ × List Seg)
    (h1 : beforeTime c a = true) (h2 : beforeTime a b = true) :
    beforeTime c b = true := by
  simp only [beforeTime, decide_eq_true_eq] at h1 h2 ⊢
  exact lt_trans h2 h1

/-- C2 counterexample: a tracker with the two leaves
`["py", 2023, 1, 1] = 0.5` and `["py", 2023, 1, 2] = 1.5` has
`totalLeafCount = 2`, yet the rebuilt `longest` data contains a single
entry — `(2.0, ["py", 2023, 1])`, the day subtree's `total` paired with its
three-segment (non-leaf) path — instead of `min(10, 2) = 2` leaf entries
with their full key paths. -/
theorem longest_runtimes_counterexample :
    ((add_data emptyT [Seg.s "py", Seg.n 2023, Seg.n 1, Seg.n 1]
          (1/2)).bind
        (fun t => add_data t [Seg.s "py", Seg.n 2023, Seg.n 1, Seg.n 2]
          (3/2))).map
        (fun t => (nodeSize t, longestList t)) =
      .ok (2, [((2 : ℚ), [Seg.s "py", Seg.n 2023, Seg.n 1])]) ∧
      (1 : Nat) ≠ min 10 2 := by
  constructor
  · simp [add_data, emptyT, mkUpdated, dictSet, dictGet, aggTotal, nodeVal,
      Except.bind, Except.map, longestList, findTimes, pySort, pyIns,
      beforeTime, nodeSize, sizeT]
    norm_num
  · decide

/-- C2 amended: the rebuilt `longest` data always contains exactly
`min(10, M)` entries that are the `N = 10` largest among the `M`
candidates collected by `find_times` — the `total` of every subtree
reached at a three-segment path plus any float leaf at a shallower depth,
not the leaves of the whole tree — ordered descending by value (ties in
traversal order), each paired with the path at which the candidate was
collected.  Maximality: the selected entries together with some `dropped`
list form exactly the candidate multiset, and every dropped candidate's
value is at most every selected entry's value. -/
theorem longest_runtimes_amended (total average : ℚ)
    (d : List (Seg × RTNode)) :
    (longestList (.sub total average d)).length =
        min 10 (findTimes d []).length ∧
      (longestList (.sub total average d)).Pairwise
        (fun x y => y.1 ≤ x.1) ∧
      (∀ e ∈ longestList (.sub total average d), e ∈ findTimes d []) ∧
      ∃ dropped,
        (longestList (.sub total average d) ++ dropped).Perm
            (findTimes d []) ∧
          ∀ x ∈ longestList (.sub total average d), ∀ y ∈ dropped,
            y.1 ≤ x.1 := by
  have hPW : (pySort beforeTime (findTimes d [])).Pairwise
      (fun a b => b.1 ≤ a.1) := by
    refine (pySort_pairwise beforeTime beforeTime_asymm beforeTime_trans
      _).imp ?_
    intro a b h
    simp only [beforeTime, decide_eq_false_iff_not] at h
    exact not_lt.mp h
  refine ⟨?_, ?_, ?_, ?_⟩
  · simp only [longestList, List.length_take,
      (pySort_perm beforeTime (findTimes d [])).length_eq]
  · exact List.Pairwise.sublist (List.take_sublist _ _) hPW
  · intro e he
    exact (pySort_perm beforeTime _).mem_iff.mp (List.mem_of_mem_take he)
  · refine ⟨(pySort beforeTime (findTimes d [])).drop 10, ?_, ?_⟩
    · simp only [longestList]
      rw [List.take_append_drop]
      exact pySort_perm beforeTime _
    · intro x hx y hy
      rw [← List.take_append_drop 10
        (pySort beforeTime (findTimes d []))] at hPW
      simp only [longestList] at hx
      exact (List.pairwise_append.mp hPW).2.2 x hx y hy
